import Mathlib

set_option maxHeartbeats 1000000

/-!
Verification development for the scimap TXM frame-alignment pipeline
(src/txm/xanes_frameset.py).  The Python data model and operations are
shallowly embedded: the HDF-backed image registry becomes an explicit
`Store` with a dataset arena and soft-link frame entries, the pure image
manipulations become Lean functions over rational-valued images, and the
alignment orchestration becomes explicit recursion over pass indices.
-/

namespace Scimap

/-! ## Image registry model

The HDF file is a map from group paths to groups; each group has a
`parent` attribute and a map from frame keys (strings such as
"8250.00_eV") to frame entries.  A frame entry is a soft link: a
reference into a dataset arena, plus the `_copy_on_write` dirty bit that
`fork_group` sets on copied links. -/

structure FrameEntry where
  ref : Nat
  cow : Bool
deriving Repr, DecidableEq

structure HGroup where
  parent : String
  frames : String → Option FrameEntry

/-- Pointwise update of a string-keyed partial map. -/
def upd {β : Type} (f : String → Option β) (k : String) (v : Option β) :
    String → Option β :=
  fun k' => if k' = k then v else f k'

structure Store (α : Type) where
  groups : String → Option HGroup
  arena : Nat → Option α
  nextRef : Nat

/-- Reading a frame follows the group, the frame entry and its soft link
into the dataset arena. -/
def Store.readFrame {α : Type} (s : Store α) (g k : String) : Option α :=
  match s.groups g with
  | none => none
  | some gr =>
    match gr.frames k with
    | none => none
    | some e => s.arena e.ref

/-- Snapshot of a source group's frames, mirroring the link-copy loop in
`fork_group`: every dataset is copied as a soft link (same arena
reference) with the copy-on-write dirty bit set. -/
def snapshotFrames (src : HGroup) : String → Option FrameEntry :=
  fun k => (src.frames k).map (fun e => { ref := e.ref, cow := true })

inductive ForkError
  | missingSource
  | conflict
deriving Repr, DecidableEq

/-- Store state after a successful fork: the target name is bound to a
group whose parent attribute is the active group and whose frames are a
copy-on-write snapshot of the source group's frames. -/
def forkedStore {α : Type} (s : Store α) (active name : String) (src : HGroup) : Store α :=
  { s with groups := upd s.groups name (some { parent := active, frames := snapshotFrames src }) }

/-- Model of `XanesFrameset.fork_group` (xanes_frameset.py lines
412-457): if the target name already exists, its recorded `parent`
attribute must equal the currently active group, otherwise a
`GroupKeyError` (the fork-conflict error) is raised and nothing is
modified; on success the target is (re)created with `parent` set to the
active group and every dataset copied as a copy-on-write soft link. -/
def Store.fork_group {α : Type} (s : Store α) (active name : String) :
    Except ForkError (Store α) :=
  match s.groups active with
  | none => .error .missingSource
  | some src =>
    match s.groups name with
    | some old =>
      if old.parent = active then .ok (forkedStore s active name src)
      else .error .conflict
    | none => .ok (forkedStore s active name src)

/-- Modelled from the spec: the per-frame write path (the
`TXMFrame.image_data` setter in txm/frame.py) is not under src/.  Spec
section 4.1 requires `write_frame` to "resize/replace the underlying
dataset", and `fork_group`'s own docstring says datasets "will be not
stored separately until set_image_data is called", so a write allocates
a fresh dataset in the arena and repoints the frame entry at it instead
of mutating the dataset behind the soft link. -/
def Store.writeFrame {α : Type} (s : Store α) (g k : String) (v : α) : Store α :=
  match s.groups g with
  | none => s
  | some gr =>
    { groups := upd s.groups g
        (some { gr with frames := upd gr.frames k (some { ref := s.nextRef, cow := false }) })
      arena := fun r => if r = s.nextRef then some v else s.arena r
      nextRef := s.nextRef + 1 }

/-- Well-formedness: every frame entry's arena reference is below the
allocation watermark. -/
def Store.WF {α : Type} (s : Store α) : Prop :=
  ∀ g gr, s.groups g = some gr → ∀ k e, gr.frames k = some e → e.ref < s.nextRef

theorem WF_forkedStore {α : Type} {s : Store α} {active : String} {src : HGroup}
    (hWF : s.WF) (hsrc : s.groups active = some src) (name : String) :
    (forkedStore s active name src).WF := by
  intro g gr hgr k e he
  simp only [forkedStore, upd] at hgr
  by_cases hgname : g = name
  · rw [if_pos hgname] at hgr
    injection hgr with hgr
    rw [← hgr] at he
    simp only [snapshotFrames] at he
    cases he₀ : src.frames k with
    | none => rw [he₀] at he; exact absurd he (by simp)
    | some e₀ =>
      rw [he₀] at he
      simp only [Option.map] at he
      injection he with he
      rw [← he]
      exact hWF active src hsrc k e₀ he₀
  · rw [if_neg hgname] at hgr
    exact hWF g gr hgr k e he

theorem fork_group_ok_eq {α : Type} {s s' : Store α} {active name : String}
    (h : s.fork_group active name = .ok s') :
    ∃ src, s.groups active = some src ∧ s' = forkedStore s active name src := by
  unfold Store.fork_group at h
  split at h
  · exact absurd h (by simp)
  · rename_i src hsrc
    refine ⟨src, hsrc, ?_⟩
    split at h
    · split at h
      · injection h with h; exact h.symm
      · exact absurd h (by simp)
    · injection h with h; exact h.symm

theorem WF_fork_group {α : Type} {s s' : Store α} {active name : String}
    (hWF : s.WF) (h : s.fork_group active name = .ok s') : s'.WF := by
  obtain ⟨src, hsrc, rfl⟩ := fork_group_ok_eq h
  exact WF_forkedStore hWF hsrc name

theorem readFrame_writeFrame_other {α : Type} (s : Store α) (hWF : s.WF)
    (g g' k k' : String) (hgg : g' ≠ g) (v : α) :
    (s.writeFrame g k v).readFrame g' k' = s.readFrame g' k' := by
  unfold Store.writeFrame
  cases hg : s.groups g with
  | none => rfl
  | some gr =>
    simp only [Store.readFrame, upd, if_neg hgg]
    cases hg' : s.groups g' with
    | none => rfl
    | some gr' =>
      simp only
      cases he : gr'.frames k' with
      | none => rfl
      | some e =>
        have hlt : e.ref < s.nextRef := hWF g' gr' hg' k' e he
        simp only [if_neg (Nat.ne_of_lt hlt)]

/-- C1 — Fork isolation: after a successful `fork_group` of the active
group `A` into a distinct name `B`, writing a new image value into any
frame of the fork `B` leaves every read from `A` unchanged, and writing
into a frame of `A` leaves every read from `B` unchanged.  Writes
allocate fresh datasets (copy-on-write replacement), so the soft links
shared at fork time are never mutated in place. -/
theorem fork_isolation {α : Type} (s : Store α) (A B : String) (s' : Store α)
    (hWF : s.WF) (hAB : A ≠ B) (hfork : s.fork_group A B = .ok s')
    (k : String) (v w : α) :
    (s'.writeFrame B k v).readFrame A k = s'.readFrame A k ∧
    (s'.writeFrame A k w).readFrame B k = s'.readFrame B k := by
  have hWF' : s'.WF := WF_fork_group hWF hfork
  constructor
  · exact readFrame_writeFrame_other s' hWF' B A k k hAB v
  · exact readFrame_writeFrame_other s' hWF' A B k k (fun h => hAB h.symm) w

/-- Concrete source group used to witness the registry theorems. -/
def demoSrcGroup : HGroup :=
  { parent := ""
    frames := fun k => if k = "8250.00_eV" then some { ref := 0, cow := false } else none }

/-- Concrete pre-existing group recording a different parent lineage. -/
def demoOldGroup : HGroup :=
  { parent := "/NCA/other", frames := fun _ => none }

/-- Concrete one-frame store used to witness the registry theorems. -/
def demoStore : Store Nat :=
  { groups := fun g => if g = "/NCA/frames" then some demoSrcGroup else none
    arena := fun r => if r = 0 then some 7 else none
    nextRef := 1 }

/-- Store in which the fork target name already exists under a different
parent lineage. -/
def demoStore2 : Store Nat :=
  { groups := fun g =>
      if g = "/NCA/frames" then some demoSrcGroup
      else if g = "/NCA/aligned" then some demoOldGroup
      else none
    arena := fun r => if r = 0 then some 7 else none
    nextRef := 1 }

theorem demoSrcGroup_frames {k : String} {e : FrameEntry}
    (he : demoSrcGroup.frames k = some e) : e.ref < 1 := by
  simp only [demoSrcGroup] at he
  by_cases hk : k = "8250.00_eV"
  · rw [if_pos hk] at he
    injection he with he
    rw [← he]
    exact Nat.zero_lt_one
  · rw [if_neg hk] at he; exact absurd he (by simp)

theorem demoStore_WF : demoStore.WF := by
  intro g gr hgr k e he
  simp only [demoStore] at hgr
  by_cases hg : g = "/NCA/frames"
  · rw [if_pos hg] at hgr
    injection hgr with hgr
    rw [← hgr] at he
    exact demoSrcGroup_frames he
  · rw [if_neg hg] at hgr; exact absurd hgr (by simp)

/-- Fork of the demo store produced by `fork_group`. -/
def demoForked : Store Nat := forkedStore demoStore "/NCA/frames" "/NCA/aligned" demoSrcGroup

theorem fork_isolation_witness :
    demoStore.WF ∧ "/NCA/frames" ≠ "/NCA/aligned" ∧
      demoStore.fork_group "/NCA/frames" "/NCA/aligned" = .ok demoForked ∧
      demoForked.readFrame "/NCA/frames" "8250.00_eV" = some 7 ∧
      ((demoForked.writeFrame "/NCA/aligned" "8250.00_eV" 99).readFrame "/NCA/frames" "8250.00_eV" =
          demoForked.readFrame "/NCA/frames" "8250.00_eV" ∧
        (demoForked.writeFrame "/NCA/frames" "8250.00_eV" 99).readFrame "/NCA/aligned" "8250.00_eV" =
          demoForked.readFrame "/NCA/aligned" "8250.00_eV") :=
  ⟨demoStore_WF, by decide, by rfl, by rfl,
    fork_isolation demoStore "/NCA/frames" "/NCA/aligned" demoForked demoStore_WF
      (by decide) (by rfl) "8250.00_eV" 99 99⟩

/-- C8 — Forking onto an existing name: if the existing group's recorded
parent differs from the currently active group, `fork_group` fails with
the fork-conflict error (and, being modelled as a pure function that
returns only the error, leaves the store unchanged); if the recorded
parent equals the active group, the existing group is replaced by a
fresh copy-on-write snapshot of the active (source) group. -/
theorem fork_group_existing_name {α : Type} (s : Store α) (active name : String)
    (src old : HGroup) (hsrc : s.groups active = some src)
    (hold : s.groups name = some old) :
    (old.parent ≠ active → s.fork_group active name = .error .conflict) ∧
    (old.parent = active → s.fork_group active name = .ok (forkedStore s active name src)) := by
  have hchar : s.fork_group active name =
      if old.parent = active then .ok (forkedStore s active name src)
      else .error .conflict := by
    unfold Store.fork_group
    rw [hsrc, hold]
  constructor
  · intro hp; rw [hchar, if_neg hp]
  · intro hp; rw [hchar, if_pos hp]

theorem fork_group_existing_name_witness :
    demoStore2.groups "/NCA/frames" = some demoSrcGroup ∧
      demoStore2.groups "/NCA/aligned" = some demoOldGroup ∧
      demoOldGroup.parent ≠ "/NCA/frames" ∧
      demoStore2.fork_group "/NCA/frames" "/NCA/aligned" = .error .conflict :=
  ⟨rfl, rfl, by decide,
    (fork_group_existing_name demoStore2 "/NCA/frames" "/NCA/aligned" demoSrcGroup
        demoOldGroup rfl rfl).1 (by decide)⟩

/-! ## Alignment orchestrator: shift accumulation and crop arithmetic

Embeds the per-pass bookkeeping of `align_frames` (xanes_frameset.py
lines 746-947): the `Crop` named tuple, the running shift limits kept by
`process_result`, the per-pass crop derived from them, the final
combined crop, and the shift history consumed by the final worker. -/

structure Crop where
  top : Int
  bottom : Int
  left : Int
  right : Int
deriving Repr, DecidableEq

structure Limits where
  left : ℚ
  right : ℚ
  top : ℚ
  bottom : ℚ
deriving Repr, DecidableEq

/-- Running min/max shift tracking from `process_result` (lines
852-860): the y component can push out the bottom or top limit, the x
component the right or left limit. -/
def updateLimits (l : Limits) (shift : ℚ × ℚ) : Limits :=
  let l₁ :=
    if shift.2 > l.bottom then { l with bottom := shift.2 }
    else if shift.2 < l.top then { l with top := shift.2 }
    else l
  if shift.1 > l₁.right then { l₁ with right := shift.1 }
  else if shift.1 < l₁.left then { l₁ with left := shift.1 }
  else l₁

/-- Per-pass crop computed from the accumulated limits (lines 880-890).
In the row direction the near-side offset is the field named `bottom`
(the slice start) and the far side is the field named `top` (the slice
end); columns use `left` (start) and `right` (end). -/
def passCrop (l : Limits) (rows cols : Int) : Crop :=
  { top := Int.floor ((rows : ℚ) - |l.bottom|)
    bottom := Int.ceil |l.top|
    left := Int.ceil |l.left|
    right := Int.floor ((cols : ℚ) - |l.right|) }

/-- Final combined crop of the consolidated pass (lines 935-943): sum
the near-side offsets (`bottom`, `left`) over all per-pass crops, then
place the far sides (`top`, `right`) so that the box keeps the last
pass's height and width. -/
def combineCrops (all_crops : List Crop) : Crop :=
  let bottom := (all_crops.map Crop.bottom).sum
  let left := (all_crops.map Crop.left).sum
  let last := all_crops.getLastD { top := 0, bottom := 0, left := 0, right := 0 }
  { top := bottom + last.top - last.bottom
    bottom := bottom
    left := left
    right := left + last.right - last.left }

/-- C2 — Combined crop of a multi-pass alignment: the near-side offsets
of the box applied to every frame (row start, stored in the `bottom`
field, and column start, stored in `left`) equal the sums of the
corresponding per-pass near-side offsets, and the far sides are placed
so that the box keeps the last pass's height and width. -/
theorem combined_crop_spec (all_crops : List Crop) (h : all_crops ≠ []) :
    (combineCrops all_crops).bottom = (all_crops.map Crop.bottom).sum ∧
    (combineCrops all_crops).left = (all_crops.map Crop.left).sum ∧
    (combineCrops all_crops).top - (combineCrops all_crops).bottom =
      (all_crops.getLast h).top - (all_crops.getLast h).bottom ∧
    (combineCrops all_crops).right - (combineCrops all_crops).left =
      (all_crops.getLast h).right - (all_crops.getLast h).left := by
  have h1 : all_crops.getLastD { top := 0, bottom := 0, left := 0, right := 0 } =
      all_crops.getLast h := by
    rw [List.getLastD_eq_getLast?, List.getLast?_eq_getLast all_crops h, Option.getD_some]
  refine ⟨?_, ?_, ?_, ?_⟩ <;> simp only [combineCrops, h1] <;> ring

/-- Concrete two-pass crop list for the combined-crop witness. -/
def demoCrops : List Crop :=
  [{ top := 10, bottom := 2, left := 3, right := 98 },
   { top := 9, bottom := 1, left := 2, right := 97 }]

theorem combined_crop_spec_witness :
    demoCrops ≠ [] ∧
      ((combineCrops demoCrops).bottom = (demoCrops.map Crop.bottom).sum ∧
        (combineCrops demoCrops).left = (demoCrops.map Crop.left).sum ∧
        (combineCrops demoCrops).top - (combineCrops demoCrops).bottom =
          (demoCrops.getLast (by decide)).top - (demoCrops.getLast (by decide)).bottom ∧
        (combineCrops demoCrops).right - (combineCrops demoCrops).left =
          (demoCrops.getLast (by decide)).right - (demoCrops.getLast (by decide)).left) :=
  ⟨by decide, combined_crop_spec demoCrops (by decide)⟩

/-- Symbolic frame data: either the original dataset of a frame key in
the pre-pass group, or the result of one `_transform` warp of an
expression by a translation. -/
inductive ImgExpr (κ : Type) where
  | orig (k : κ)
  | warped (e : ImgExpr κ) (t : ℚ × ℚ)

/-- Number of interpolating warps a frame's data has gone through. -/
def warpCount {κ : Type} : ImgExpr κ → Nat
  | .orig _ => 0
  | .warped e _ => warpCount e + 1

/-- Shift history for frame `k` after the first `p` passes, as recorded
by `process_result` (lines 861-864): each pass appends its registration
shift to the frame's list.  The registration outcome of pass `p` on
frame `k` is abstracted as `reg p k`. -/
def passShifts {κ : Type} (reg : Nat → κ → ℚ × ℚ) : Nat → κ → List (ℚ × ℚ)
  | 0, _ => []
  | p + 1, k => passShifts reg p k ++ [reg p k]

/-- Working-group data of frame `k` after `p` passes: each per-pass
worker warps the frame's current data by that pass's shift (line 821). -/
def passImage {κ : Type} (reg : Nat → κ → ℚ × ℚ) : Nat → κ → ImgExpr κ
  | 0, k => .orig k
  | p + 1, k => .warped (passImage reg p k) (reg p k)

/-- Total shift computed by the final worker (lines 908-912):
componentwise sum of the recorded shift list. -/
def sumShift (l : List (ℚ × ℚ)) : ℚ × ℚ :=
  ((l.map Prod.fst).sum, (l.map Prod.snd).sum)

/-- Final consolidated data of frame `k` (lines 894-933): after
reverting to the original group and re-forking, the final worker warps
the original dataset once by the summed shift. -/
def finalImage {κ : Type} (reg : Nat → κ → ℚ × ℚ) (passes : Nat) (k : κ) : ImgExpr κ :=
  .warped (.orig k) (sumShift (passShifts reg passes k))

/-- C3 — Final consolidated translation: with more than one pass, the
recorded history of frame `k` is exactly the ordered list of per-pass
shifts, the translation applied in the final step is its componentwise
sum, and that translation is applied in exactly one warp of the
original pre-pass data (whereas the working group's data after the
passes has gone through one warp per pass). -/
theorem final_translation_is_sum {κ : Type} (reg : Nat → κ → ℚ × ℚ) (passes : Nat)
    (k : κ) (h : 1 < passes) :
    passShifts reg passes k = (List.range passes).map (fun p => reg p k) ∧
    finalImage reg passes k =
      .warped (.orig k)
        (((List.range passes).map (fun p => (reg p k).1)).sum,
          ((List.range passes).map (fun p => (reg p k).2)).sum) ∧
    warpCount (finalImage reg passes k) = 1 ∧
    warpCount (passImage reg passes k) = passes := by
  have hhist : ∀ n, passShifts reg n k = (List.range n).map (fun p => reg p k) := by
    intro n
    induction n with
    | zero => rfl
    | succ m ih =>
      rw [passShifts, ih, List.range_succ, List.map_append]
      rfl
  have hcount : ∀ n, warpCount (passImage reg n k) = n := by
    intro n
    induction n with
    | zero => rfl
    | succ m ih => rw [passImage, warpCount, ih]
  refine ⟨hhist passes, ?_, rfl, hcount passes⟩
  unfold finalImage sumShift
  rw [hhist passes, List.map_map, List.map_map]
  rfl

/-- Concrete registration oracle for the witness: pass p shifts frame k
by (p + k, p - k). -/
def demoReg : Nat → Nat → ℚ × ℚ := fun p k => ((p : ℚ) + (k : ℚ), (p : ℚ) - (k : ℚ))

theorem final_translation_is_sum_witness :
    1 < 2 ∧
      (passShifts demoReg 2 0 = (List.range 2).map (fun p => demoReg p 0) ∧
        finalImage demoReg 2 0 =
          .warped (.orig 0)
            (((List.range 2).map (fun p => (demoReg p 0).1)).sum,
              ((List.range 2).map (fun p => (demoReg p 0).2)).sum) ∧
        warpCount (finalImage demoReg 2 0) = 1 ∧
        warpCount (passImage demoReg 2 0) = 2) :=
  ⟨by decide, final_translation_is_sum demoReg 2 0 (by decide)⟩

/-! ## Alignment parameter validation

Embeds the prelude of `align_frames` (xanes_frameset.py lines 722-751):
the blur filter check, the per-pass method check, the methods/passes
length check, and only then the fork of the active group. -/

inductive AlignError where
  | invalidBlur
  | invalidMethod (m : String)
  | methodsLengthMismatch
  | forkFailed
deriving Repr, DecidableEq

/-- Configuration errors are those raised by the validation prelude, as
opposed to failures of later store operations. -/
def AlignError.isConfigError : AlignError → Bool
  | .invalidBlur => true
  | .invalidMethod _ => true
  | .methodsLengthMismatch => true
  | .forkFailed => false

def validFilters : List (Option String) := [some "median", none]

def validMethods : List String := ["cross_correlation", "template_match"]

/-- Effective per-pass method list (lines 731-733): an empty `methods`
argument is replaced by `passes` copies of `method`. -/
def resolveMethods (method : String) (methods : List String) (passes : Nat) :
    List String :=
  if methods = [] then List.replicate passes method else methods

/-- Validation prelude of `align_frames` in source order: blur filter
first (line 724), then each effective method (lines 734-737), then the
length comparison against `passes` (lines 738-740). -/
def validateAlign (blur : Option String) (method : String) (methods : List String)
    (passes : Nat) : Except AlignError (List String) :=
  if blur ∈ validFilters then
    match (resolveMethods method methods passes).find?
        (fun m => decide (m ∉ validMethods)) with
    | some m => .error (.invalidMethod m)
    | none =>
      if (resolveMethods method methods passes).length = passes then
        .ok (resolveMethods method methods passes)
      else .error .methodsLengthMismatch
  else .error .invalidBlur

/-- Front end of `align_frames` over the store model: validate the
parameters, then fork the active group into the new name.  Registration
work (modelled by `passShifts` and `finalImage`) only happens on the
store produced here. -/
def align_frames {α : Type} (s : Store α) (active new_name : String)
    (blur : Option String) (method : String) (methods : List String)
    (passes : Nat) : Except AlignError (Store α) :=
  match validateAlign blur method methods passes with
  | .error e => .error e
  | .ok _ms =>
    match s.fork_group active new_name with
    | .error _ => .error .forkFailed
    | .ok s' => .ok s'

theorem validateAlign_error (blur : Option String) (method : String)
    (methods : List String) (passes : Nat)
    (hbad : blur ∉ validFilters ∨
      (∃ m ∈ resolveMethods method methods passes, m ∉ validMethods) ∨
      (methods ≠ [] ∧ methods.length ≠ passes)) :
    ∃ e, validateAlign blur method methods passes = .error e ∧
      e.isConfigError = true := by
  by_cases hb : blur ∈ validFilters
  · have hbad' : (∃ m ∈ resolveMethods method methods passes, m ∉ validMethods) ∨
        (methods ≠ [] ∧ methods.length ≠ passes) := by
      rcases hbad with h | h | h
      · exact absurd hb h
      · exact Or.inl h
      · exact Or.inr h
    unfold validateAlign
    rw [if_pos hb]
    cases hfind : (resolveMethods method methods passes).find?
        (fun m => decide (m ∉ validMethods)) with
    | some m => exact ⟨.invalidMethod m, rfl, rfl⟩
    | none =>
      have hall : ∀ m ∈ resolveMethods method methods passes, m ∈ validMethods := by
        intro m hm
        have := List.find?_eq_none.mp hfind m hm
        simpa using this
      rcases hbad' with h | ⟨hne, hlen⟩
      · rcases h with ⟨m, hm, hmv⟩
        exact absurd (hall m hm) hmv
      · have hres : resolveMethods method methods passes = methods := by
          unfold resolveMethods
          rw [if_neg hne]
        rw [if_neg (by rw [hres]; exact hlen)]
        exact ⟨.methodsLengthMismatch, rfl, rfl⟩
  · refine ⟨.invalidBlur, ?_, rfl⟩
    unfold validateAlign
    rw [if_neg hb]

/-- C4 — Invalid alignment parameters: a blur filter outside
{"median", None}, an effective per-pass method outside
{cross_correlation, template_match}, or a non-empty methods list whose
length differs from `passes`, make `align_frames` return a
configuration error produced by the validation prelude, before
`fork_group` runs and before any frame is written, so the store is left
unchanged (the model returns only the error). -/
theorem align_frames_validation {α : Type} (s : Store α) (active new_name : String)
    (blur : Option String) (method : String) (methods : List String) (passes : Nat)
    (hbad : blur ∉ validFilters ∨
      (∃ m ∈ resolveMethods method methods passes, m ∉ validMethods) ∨
      (methods ≠ [] ∧ methods.length ≠ passes)) :
    ∃ e, align_frames s active new_name blur method methods passes = .error e ∧
      e.isConfigError = true := by
  obtain ⟨e, he, hcfg⟩ := validateAlign_error blur method methods passes hbad
  exact ⟨e, by unfold align_frames; rw [he], hcfg⟩

theorem align_frames_validation_witness :
    ((some "gaussian" : Option String) ∉ validFilters ∨
      (∃ m ∈ resolveMethods "cross_correlation" [] 2, m ∉ validMethods) ∨
      (([] : List String) ≠ [] ∧ ([] : List String).length ≠ 2)) ∧
      ∃ e, align_frames demoStore "/NCA/frames" "/NCA/aligned" (some "gaussian")
          "cross_correlation" [] 2 = .error e ∧ e.isConfigError = true :=
  ⟨Or.inl (by decide),
    align_frames_validation demoStore "/NCA/frames" "/NCA/aligned" (some "gaussian")
      "cross_correlation" [] 2 (Or.inl (by decide))⟩

/-! ## Edge jump filter

Embeds `edge_jump_filter` (xanes_frameset.py lines 1406-1429): frames
are classified by an if/elif chain — a frame in the inclusive pre-edge
range joins the pre-edge population, otherwise a frame in the inclusive
post-edge range joins the post-edge population, otherwise neither — and
the filter image is the pixelwise mean of the post images minus the
pixelwise mean of the pre images. -/

structure Edge where
  pre_edge : ℚ × ℚ
  post_edge : ℚ × ℚ
  E_0 : ℚ

structure TFrame (π : Type) where
  energy : ℚ
  image : π → ℚ

/-- Classification loop of `edge_jump_filter` (lines 1415-1419),
including the `elif`: a frame in both ranges lands only in the pre-edge
list. -/
def classifyFrames {π : Type} (frames : List (TFrame π)) (pre post : ℚ × ℚ) :
    List (TFrame π) × List (TFrame π) :=
  match frames with
  | [] => ([], [])
  | f :: rest =>
    let r := classifyFrames rest pre post
    if pre.1 ≤ f.energy ∧ f.energy ≤ pre.2 then (f :: r.1, r.2)
    else if post.1 ≤ f.energy ∧ f.energy ≤ post.2 then (r.1, f :: r.2)
    else r

/-- Pixelwise mean over a list of frames (np.mean along axis 0). -/
def meanImage {π : Type} (imgs : List (TFrame π)) : π → ℚ :=
  fun p => (imgs.map (fun f => f.image p)).sum / imgs.length

/-- Pixelwise difference of the post-edge mean and the pre-edge mean
(lines 1420-1429). -/
def edge_jump_filter {π : Type} (frames : List (TFrame π)) (edge : Edge) : π → ℚ :=
  fun p =>
    meanImage (classifyFrames frames edge.pre_edge edge.post_edge).2 p -
      meanImage (classifyFrames frames edge.pre_edge edge.post_edge).1 p

/-- Membership test of the pre-edge population: the inclusive pre-edge
range, exactly as the claim states. -/
def inPre {π : Type} (edge : Edge) (f : TFrame π) : Bool :=
  decide (edge.pre_edge.1 ≤ f.energy ∧ f.energy ≤ edge.pre_edge.2)

/-- Membership test of the post-edge population as the code implements
it: the inclusive post-edge range, but only for frames that did not
already match the pre-edge range (the `elif`). -/
def inPostOnly {π : Type} (edge : Edge) (f : TFrame π) : Bool :=
  !inPre edge f && decide (edge.post_edge.1 ≤ f.energy ∧ f.energy ≤ edge.post_edge.2)

/-- Edge with overlapping range bounds from the claim's example. -/
def demoEdge : Edge :=
  { pre_edge := (8250, 8290), post_edge := (8290, 8295), E_0 := 8290 }

/-- Frame at the shared boundary energy 8290. -/
def demoFrame8290 : TFrame Unit :=
  { energy := 8290, image := fun _ => 1 }

/-- Counterexample to C5 as stated: the frame at energy 8290 lies in the
inclusive post-edge range (8290, 8295) of `demoEdge`, yet the code's
classification puts it only in the pre-edge population and the post-edge
population stays empty, so membership in the post-edge population is not
equivalent to the energy lying in the inclusive post-edge range. -/
theorem edge_jump_post_iff_counterexample :
    (classifyFrames [demoFrame8290] demoEdge.pre_edge demoEdge.post_edge).2.map
        (fun f => f.energy) = ([] : List ℚ) ∧
    (demoEdge.post_edge.1 ≤ demoFrame8290.energy ∧
      demoFrame8290.energy ≤ demoEdge.post_edge.2) ∧
    (classifyFrames [demoFrame8290] demoEdge.pre_edge demoEdge.post_edge).1.map
        (fun f => f.energy) = [8290] := by
  refine ⟨?_, by norm_num [demoEdge, demoFrame8290], ?_⟩ <;>
    norm_num [classifyFrames, demoEdge, demoFrame8290]

/-- C5 (amended) — edge_jump_filter returns, pixelwise, mean(post-edge
frames) minus mean(pre-edge frames); a frame is in the pre-edge
population iff its energy lies in the inclusive pre-edge range, and in
the post-edge population iff its energy lies in the inclusive post-edge
range and not in the pre-edge range (the if/elif chain sends a frame in
both ranges, such as 8290 for the claim's example edge, only to the
pre-edge population); a frame matching neither range contributes to
neither mean and raises no error. -/
theorem edge_jump_filter_amended {π : Type} (frames : List (TFrame π)) (edge : Edge)
    (p : π) :
    (classifyFrames frames edge.pre_edge edge.post_edge).1 =
      frames.filter (inPre edge) ∧
    (classifyFrames frames edge.pre_edge edge.post_edge).2 =
      frames.filter (inPostOnly edge) ∧
    edge_jump_filter frames edge p =
      meanImage (frames.filter (inPostOnly edge)) p -
        meanImage (frames.filter (inPre edge)) p := by
  have hcls : (classifyFrames frames edge.pre_edge edge.post_edge).1 =
      frames.filter (inPre edge) ∧
      (classifyFrames frames edge.pre_edge edge.post_edge).2 =
        frames.filter (inPostOnly edge) := by
    induction frames with
    | nil => exact ⟨rfl, rfl⟩
    | cons f rest ih =>
      rw [classifyFrames]
      by_cases hpre : edge.pre_edge.1 ≤ f.energy ∧ f.energy ≤ edge.pre_edge.2
      · rw [if_pos hpre]
        have h1 : inPre edge f = true := by simp [inPre, hpre]
        have h2 : inPostOnly edge f = false := by simp [inPostOnly, h1]
        constructor
        · rw [List.filter_cons_of_pos (by rw [h1]), ih.1]
        · rw [List.filter_cons_of_neg (by rw [h2]; simp), ih.2]
      · rw [if_neg hpre]
        have h1 : inPre edge f = false := by simp [inPre, hpre]
        by_cases hpost : edge.post_edge.1 ≤ f.energy ∧ f.energy ≤ edge.post_edge.2
        · rw [if_pos hpost]
          have h2 : inPostOnly edge f = true := by simp [inPostOnly, h1, hpost]
          constructor
          · rw [List.filter_cons_of_neg (by rw [h1]; simp), ih.1]
          · rw [List.filter_cons_of_pos (by rw [h2]), ih.2]
        · rw [if_neg hpost]
          have h2 : inPostOnly edge f = false := by simp [inPostOnly, h1, hpost]
          constructor
          · rw [List.filter_cons_of_neg (by rw [h1]; simp), ih.1]
          · rw [List.filter_cons_of_neg (by rw [h2]; simp), ih.2]
  refine ⟨hcls.1, hcls.2, ?_⟩
  unfold edge_jump_filter
  rw [hcls.1, hcls.2]

/-! ## Frame iteration order and the xanes spectrum

Embeds `XanesFrameset.energies` (xanes_frameset.py lines 1616-1625) and
the spectrum loop of `xanes_spectrum` (lines 1288-1307).  Frame groups
are keyed by the format string "{:.2f}_eV" (line 52) and h5py iterates a
group's members in name (byte-lexicographic) order, so `energies`
collects the per-frame energy attributes in that order and `__iter__`
(lines 301-306) visits frames in the same order. -/

/-- Decimal digits of a natural number, most significant first; the
first argument is recursion fuel. -/
def natDigits : Nat → Nat → List Char
  | 0, _ => []
  | _ + 1, 0 => []
  | fuel + 1, n => natDigits fuel (n / 10) ++ [Char.ofNat (48 + n % 10)]

def natStr (n : Nat) : List Char := if n = 0 then ['0'] else natDigits n n

/-- Format key "{:.2f}_eV" of an energy, as a character list.  The model
covers the energies the store holds: nonnegative values already rounded
to two decimals (the `approximate_energy` attribute), for which the
format truncates nothing. -/
def energyKey (q : ℚ) : List Char :=
  let cents : Nat := (q.num * 100 / (q.den : Int)).toNat
  let whole := cents / 100
  let frac := cents % 100
  natStr whole ++ ['.'] ++
    (if frac < 10 then '0' :: natStr frac else natStr frac) ++ ['_', 'e', 'V']

/-- Byte-lexicographic comparison of two keys, the order in which h5py
yields group member names. -/
def charListLe : List Char → List Char → Bool
  | [], _ => true
  | _ :: _, [] => false
  | a :: as, b :: bs =>
    if a.toNat < b.toNat then true
    else if b.toNat < a.toNat then false
    else charListLe as bs

/-- Key order on energies: lexicographic on the formatted keys. -/
def keyLe (a b : ℚ) : Prop := charListLe (energyKey a) (energyKey b) = true

def insertByKey (x : ℚ) : List ℚ → List ℚ
  | [] => [x]
  | y :: ys =>
    if charListLe (energyKey x) (energyKey y) then x :: y :: ys
    else y :: insertByKey x ys

/-- Name-order iteration over a group's frame members: the stored
energies sorted by their formatted key strings. -/
def sortByKey : List ℚ → List ℚ
  | [] => []
  | x :: xs => insertByKey x (sortByKey xs)

/-- Model of `XanesFrameset.energies`: the energy attribute of every
frame member, collected in h5py's name iteration order. -/
def energiesList (es : List ℚ) : List ℚ := sortByKey es

/-- Model of the `xanes_spectrum` loop: one (energy, intensity) pair is
appended per frame, in frame iteration order; the intensity computed
from the frame's data is abstracted as a function of its energy. -/
def xanes_spectrum (es : List ℚ) (intensity : ℚ → ℚ) : List (ℚ × ℚ) :=
  (energiesList es).map (fun E => (E, intensity E))

/-- Counterexample to C6 as stated: for stored energies 900 and 8250 the
keys are "900.00_eV" and "8250.00_eV", and lexicographic name order puts
"8250.00_eV" first, so the spectrum lists 8250 before 900 — not
ascending numeric order. -/
theorem xanes_spectrum_ascending_counterexample :
    (xanes_spectrum [900, 8250] (fun _ => 1)).map Prod.fst = [8250, 900] ∧
      ¬ ((8250 : ℚ) ≤ (900 : ℚ)) := by
  constructor
  · decide
  · norm_num

theorem charListLe_total : ∀ as bs, charListLe as bs = true ∨ charListLe bs as = true := by
  intro as
  induction as with
  | nil => intro bs; exact Or.inl rfl
  | cons a as ih =>
    intro bs
    cases bs with
    | nil => exact Or.inr rfl
    | cons b bs =>
      rw [charListLe, charListLe]
      by_cases h1 : a.toNat < b.toNat
      · left; rw [if_pos h1]
      · by_cases h2 : b.toNat < a.toNat
        · right; rw [if_pos h2]
        · rw [if_neg h1, if_neg h2, if_neg h2, if_neg h1]
          exact ih bs

theorem charListLe_trans : ∀ as bs cs, charListLe as bs = true →
    charListLe bs cs = true → charListLe as cs = true := by
  intro as
  induction as with
  | nil => intro bs cs _ _; rfl
  | cons a as ih =>
    intro bs cs h1 h2
    cases bs with
    | nil => rw [charListLe] at h1; exact absurd h1 (by simp)
    | cons b bs =>
      cases cs with
      | nil => rw [charListLe] at h2; exact absurd h2 (by simp)
      | cons c cs =>
        rw [charListLe] at h1 h2 ⊢
        by_cases hab : a.toNat < b.toNat
        · by_cases hbc : b.toNat < c.toNat
          · rw [if_pos (Nat.lt_trans hab hbc)]
          · by_cases hcb : c.toNat < b.toNat
            · rw [if_neg hbc, if_pos hcb] at h2
              exact absurd h2 (by simp)
            · have hbceq : b.toNat = c.toNat :=
                Nat.le_antisymm (Nat.le_of_not_lt hcb) (Nat.le_of_not_lt hbc)
              rw [if_pos (hbceq ▸ hab)]
        · by_cases hba : b.toNat < a.toNat
          · rw [if_neg hab, if_pos hba] at h1
            exact absurd h1 (by simp)
          · have habeq : a.toNat = b.toNat :=
              Nat.le_antisymm (Nat.le_of_not_lt hba) (Nat.le_of_not_lt hab)
            rw [if_neg hab, if_neg hba] at h1
            by_cases hbc : b.toNat < c.toNat
            · rw [if_pos (habeq ▸ hbc)]
            · by_cases hcb : c.toNat < b.toNat
              · rw [if_neg hbc, if_pos hcb] at h2
                exact absurd h2 (by simp)
              · have hac : ¬ a.toNat < c.toNat := by rw [habeq]; exact hbc
                have hca : ¬ c.toNat < a.toNat := by rw [habeq]; exact hcb
                rw [if_neg hbc, if_neg hcb] at h2
                rw [if_neg hac, if_neg hca]
                exact ih bs cs h1 h2

theorem mem_insertByKey {x b : ℚ} : ∀ {l : List ℚ},
    b ∈ insertByKey x l → b = x ∨ b ∈ l := by
  intro l
  induction l with
  | nil =>
    intro h
    rw [insertByKey] at h
    exact Or.inl (List.mem_singleton.mp h)
  | cons y ys ih =>
    intro h
    rw [insertByKey] at h
    by_cases hxy : charListLe (energyKey x) (energyKey y) = true
    · rw [if_pos hxy] at h
      rcases List.mem_cons.mp h with h | h
      · exact Or.inl h
      · exact Or.inr h
    · rw [if_neg hxy] at h
      rcases List.mem_cons.mp h with h | h
      · exact Or.inr (h ▸ List.mem_cons_self y ys)
      · rcases ih h with h' | h'
        · exact Or.inl h'
        · exact Or.inr (List.mem_cons_of_mem y h')

theorem pairwise_insertByKey (x : ℚ) : ∀ {l : List ℚ},
    List.Pairwise keyLe l → List.Pairwise keyLe (insertByKey x l) := by
  intro l
  induction l with
  | nil =>
    intro _
    rw [insertByKey]
    exact List.pairwise_singleton _ _
  | cons y ys ih =>
    intro h
    rcases List.pairwise_cons.mp h with ⟨hy, hys⟩
    rw [insertByKey]
    by_cases hxy : charListLe (energyKey x) (energyKey y) = true
    · rw [if_pos hxy]
      refine List.pairwise_cons.mpr ⟨?_, h⟩
      intro b hb
      rcases List.mem_cons.mp hb with hb | hb
      · rw [hb]; exact hxy
      · exact charListLe_trans _ _ _ hxy (hy b hb)
    · rw [if_neg hxy]
      refine List.pairwise_cons.mpr ⟨?_, ih hys⟩
      intro b hb
      rcases mem_insertByKey hb with hb | hb
      · rw [hb]
        rcases charListLe_total (energyKey x) (energyKey y) with h' | h'
        · exact absurd h' hxy
        · exact h'
      · exact hy b hb

theorem pairwise_sortByKey (l : List ℚ) : List.Pairwise keyLe (sortByKey l) := by
  induction l with
  | nil => exact List.Pairwise.nil
  | cons x xs ih =>
    rw [sortByKey]
    exact pairwise_insertByKey x ih

/-- C6 (amended) — the (energy, intensity) series produced by
xanes_spectrum lists energies in frame iteration order, which is h5py's
name order: ascending lexicographic order of the "{:.2f}_eV" key
strings.  This coincides with ascending numeric order only when the
lexicographic order of the formatted keys agrees with the numeric order
(for example when all integer parts have the same digit count), not for
every set of frame energies. -/
theorem xanes_spectrum_key_order (es : List ℚ) (intensity : ℚ → ℚ) :
    (xanes_spectrum es intensity).map Prod.fst = energiesList es ∧
      List.Pairwise keyLe (energiesList es) := by
  constructor
  · simp [xanes_spectrum, List.map_map, Function.comp_def]
  · exact pairwise_sortByKey es

/-! ## Gaussian whiteline mapping

Embeds `calculate_gaussian_whiteline` (xanes_frameset.py lines 94-173):
the frame stack is transposed into one spectrum per pixel, each spectrum
is processed independently by the worker, and the worker catches the
fit's RefinementError, substituting the edge's nominal energy E_0 with
goodness 0 for that pixel only.  The edge's peak fit itself lives
outside this file's source (peakfitting/edge modules), so it is taken as
a function argument, exactly as `edge` is an argument of the Python
function. -/

/-- Spectrum of one pixel: (energy, absorbance) samples. -/
abbrev Spectrum := List (ℚ × ℚ)

/-- Spectrum of pixel `i`: the i-th entry of every frame, indexed by the
energies (the transpose loop of lines 120-127). -/
def pixelSpectrum (energies : List ℚ) (frames : List (List ℚ)) (i : Nat) : Spectrum :=
  energies.zip (frames.map (fun fr => fr.getD i 0))

/-- Worker of lines 138-154: try the fit; a fit error yields (E_0, 0)
for this pixel, success yields the fitted center and goodness. -/
def whitelineWorker (fit : Spectrum → Except Unit (ℚ × ℚ)) (E_0 : ℚ)
    (idx : Nat) (spectrum : Spectrum) : Nat × ℚ × ℚ :=
  match fit spectrum with
  | .error _ => (idx, E_0, 0)
  | .ok r => (idx, r.1, r.2)

/-- Model of `calculate_gaussian_whiteline`: one worker result per pixel
of a frame, collected into the whiteline array and the goodness array. -/
def calculate_gaussian_whiteline (fit : Spectrum → Except Unit (ℚ × ℚ)) (E_0 : ℚ)
    (energies : List ℚ) (frames : List (List ℚ)) : List ℚ × List ℚ :=
  let npix := (frames.headD []).length
  let results := (List.range npix).map
    (fun i => whitelineWorker fit E_0 i (pixelSpectrum energies frames i))
  (results.map (fun r => r.2.1), results.map (fun r => r.2.2))

/-- C7 — Localized fit failure: both returned arrays always have as many
entries as one input frame has pixels; a pixel whose fit raises gets the
edge's nominal energy E_0 with goodness 0; every other pixel's fitted
center and goodness are still computed. -/
theorem gaussian_whiteline_localized (fit : Spectrum → Except Unit (ℚ × ℚ)) (E_0 : ℚ)
    (energies : List ℚ) (frames : List (List ℚ)) (i : Nat)
    (hi : i < (frames.headD []).length) :
    ((calculate_gaussian_whiteline fit E_0 energies frames).1.length =
        (frames.headD []).length ∧
      (calculate_gaussian_whiteline fit E_0 energies frames).2.length =
        (frames.headD []).length) ∧
    (fit (pixelSpectrum energies frames i) = .error () →
      (calculate_gaussian_whiteline fit E_0 energies frames).1.get? i = some E_0 ∧
      (calculate_gaussian_whiteline fit E_0 energies frames).2.get? i = some 0) ∧
    (∀ c g, fit (pixelSpectrum energies frames i) = .ok (c, g) →
      (calculate_gaussian_whiteline fit E_0 energies frames).1.get? i = some c ∧
      (calculate_gaussian_whiteline fit E_0 energies frames).2.get? i = some g) := by
  have hget : ∀ (f : Nat × ℚ × ℚ → ℚ),
      (((List.range (frames.headD []).length).map
        (fun j => whitelineWorker fit E_0 j (pixelSpectrum energies frames j))).map f).get? i =
      some (f (whitelineWorker fit E_0 i (pixelSpectrum energies frames i))) := by
    intro f
    rw [List.get?_map, List.get?_map, List.get?_range hi]
    rfl
  refine ⟨⟨?_, ?_⟩, ?_, ?_⟩
  · simp [calculate_gaussian_whiteline]
  · simp [calculate_gaussian_whiteline]
  · intro hfail
    constructor
    · rw [calculate_gaussian_whiteline]
      rw [hget (fun r => r.2.1)]
      rw [whitelineWorker, hfail]
    · rw [calculate_gaussian_whiteline]
      rw [hget (fun r => r.2.2)]
      rw [whitelineWorker, hfail]
  · intro c g hok
    constructor
    · rw [calculate_gaussian_whiteline]
      rw [hget (fun r => r.2.1)]
      rw [whitelineWorker, hok]
    · rw [calculate_gaussian_whiteline]
      rw [hget (fun r => r.2.2)]
      rw [whitelineWorker, hok]

/-- Fit oracle for the witness: fails on a spectrum whose first
absorbance is 5, otherwise returns the first energy with goodness 1. -/
def demoFit : Spectrum → Except Unit (ℚ × ℚ) :=
  fun s => if (s.map Prod.snd).headD 0 = 5 then .error ()
    else .ok ((s.map Prod.fst).headD 0, 1)

def demoFrames : List (List ℚ) := [[5, 1], [2, 3]]

def demoEnergies : List ℚ := [8300, 8350]

theorem gaussian_whiteline_localized_witness :
    0 < (demoFrames.headD []).length ∧
      (((calculate_gaussian_whiteline demoFit 8290 demoEnergies demoFrames).1.length =
          (demoFrames.headD []).length ∧
        (calculate_gaussian_whiteline demoFit 8290 demoEnergies demoFrames).2.length =
          (demoFrames.headD []).length) ∧
      (demoFit (pixelSpectrum demoEnergies demoFrames 0) = .error () →
        (calculate_gaussian_whiteline demoFit 8290 demoEnergies demoFrames).1.get? 0 =
            some 8290 ∧
        (calculate_gaussian_whiteline demoFit 8290 demoEnergies demoFrames).2.get? 0 =
            some 0) ∧
      (∀ c g, demoFit (pixelSpectrum demoEnergies demoFrames 0) = .ok (c, g) →
        (calculate_gaussian_whiteline demoFit 8290 demoEnergies demoFrames).1.get? 0 =
            some c ∧
        (calculate_gaussian_whiteline demoFit 8290 demoEnergies demoFrames).2.get? 0 =
            some g)) :=
  ⟨by decide, gaussian_whiteline_localized demoFit 8290 demoEnergies demoFrames 0 (by decide)⟩

/-! ## Geometric transform engine

Embeds `_transform` (xanes_frameset.py lines 206-227): a similarity
transform restricted to the translation component (the only one
`align_frames` uses), applied by inverse mapping with the "wrap"
boundary mode of `transform.warp`; the real component is always warped
and the imaginary component is warped and recombined only when any of
its entries is nonzero (`np.any(data.imag)`), otherwise the result is
the warped real data with a zero imaginary part. -/

/-- Pixel lookup of a row-major image. -/
def sample (img : List (List ℚ)) (r c : Nat) : ℚ :=
  (img.getD r []).getD c 0

/-- Inverse-mapped translation with wrap boundary mode: output pixel
(i, j) reads input pixel (i + ty, j + tx), wrapped modulo the image
size.  Models `transform.warp` with `SimilarityTransform(translation =
(tx, ty))` as `inverse_map` and `mode = "wrap"` at integer
translations, where no interpolation takes place. -/
def warpWrap (img : List (List ℚ)) (t : Int × Int) : List (List ℚ) :=
  (List.range img.length).map (fun (i : Nat) =>
    (List.range (img.headD []).length).map (fun (j : Nat) =>
      sample img (((i : Int) + t.2) % (img.length : Int)).toNat
        (((j : Int) + t.1) % ((img.headD []).length : Int)).toNat))

/-- Possibly complex image data: real and imaginary planes. -/
structure CImage where
  re : List (List ℚ)
  im : List (List ℚ)
deriving Repr, DecidableEq

/-- Test np.any(data.imag): some imaginary entry is nonzero. -/
def anyImag (d : CImage) : Bool :=
  d.im.any (fun row => row.any (fun x => decide (x ≠ 0)))

def zeroImage (h w : Nat) : List (List ℚ) :=
  List.replicate h (List.replicate w 0)

/-- Model of `_transform`: warp the real plane; recombine a warped
imaginary plane only when np.any(data.imag), otherwise the returned
array is real (zero imaginary plane of the real plane's shape). -/
def _transform (d : CImage) (t : Int × Int) : CImage :=
  if anyImag d then { re := warpWrap d.re t, im := warpWrap d.im t }
  else { re := warpWrap d.re t, im := zeroImage d.re.length (d.re.headD []).length }

theorem range_map_getD {β : Type} (d : β) : ∀ (row : List β),
    (List.range row.length).map (fun j => row.getD j d) = row := by
  intro row
  induction row with
  | nil => rfl
  | cons a l ih =>
    rw [List.length_cons, List.range_succ_eq_map, List.map_cons, List.map_map]
    have hcomp : ((fun j => (a :: l).getD j d) ∘ Nat.succ) = (fun j => l.getD j d) := by
      funext j
      simp [List.getD_cons_succ]
    rw [hcomp, ih]
    simp [List.getD_cons_zero]

theorem natCast_mod_toNat {i n : Nat} (h : i < n) :
    (((i : Int) + (0 : Int)) % (n : Int)).toNat = i := by
  rw [Int.add_zero, Int.emod_eq_of_lt (Int.natCast_nonneg i) (Int.ofNat_lt.mpr h)]
  exact Int.toNat_natCast i

theorem warpWrap_zero (img : List (List ℚ))
    (hrect : ∀ row ∈ img, row.length = (img.headD []).length) :
    warpWrap img (0, 0) = img := by
  unfold warpWrap
  have houter : ∀ i ∈ List.range img.length,
      (List.range (img.headD []).length).map (fun (j : Nat) =>
        sample img (((i : Int) + ((0 : Int), (0 : Int)).2) % (img.length : Int)).toNat
          (((j : Int) + ((0 : Int), (0 : Int)).1) % ((img.headD []).length : Int)).toNat) =
        img.getD i [] := by
    intro i hi
    have hih : i < img.length := List.mem_range.mp hi
    have hmem : img.getD i [] ∈ img := by
      rw [List.getD_eq_getElem img [] hih]
      exact List.getElem_mem hih
    have hrow : (img.getD i []).length = (img.headD []).length := hrect _ hmem
    have hinner : ∀ j ∈ List.range (img.headD []).length,
        sample img (((i : Int) + ((0 : Int), (0 : Int)).2) % (img.length : Int)).toNat
          (((j : Int) + ((0 : Int), (0 : Int)).1) % ((img.headD []).length : Int)).toNat =
          (img.getD i []).getD j 0 := by
      intro j hj
      have hjw : j < (img.headD []).length := List.mem_range.mp hj
      rw [show (((0 : Int), (0 : Int)).2 : Int) = (0 : Int) from rfl,
        show (((0 : Int), (0 : Int)).1 : Int) = (0 : Int) from rfl,
        natCast_mod_toNat hih, natCast_mod_toNat hjw]
      rfl
    rw [List.map_congr_left hinner, ← hrow, range_map_getD]
  rw [List.map_congr_left houter]
  exact range_map_getD ([] : List ℚ) img

/-- C9 — Identity law of the transform engine: for a rectangular image
(real or complex), applying `_transform` with a zero translation
returns the input unchanged, and warping is deterministic — it is a
pure function, so identical inputs give identical outputs. -/
theorem transform_zero_identity (d : CImage) (h w : Nat)
    (hre1 : d.re.length = h) (hre2 : ∀ row ∈ d.re, row.length = w)
    (hrw : (d.re.headD []).length = w)
    (him1 : d.im.length = h) (him2 : ∀ row ∈ d.im, row.length = w)
    (hiw : (d.im.headD []).length = w) :
    _transform d (0, 0) = d ∧ ∀ t : Int × Int, _transform d t = _transform d t := by
  refine ⟨?_, fun _ => rfl⟩
  have hre : warpWrap d.re (0, 0) = d.re :=
    warpWrap_zero d.re (fun row hr => (hre2 row hr).trans hrw.symm)
  unfold _transform
  by_cases ha : anyImag d
  · have him : warpWrap d.im (0, 0) = d.im :=
      warpWrap_zero d.im (fun row hr => (him2 row hr).trans hiw.symm)
    rw [if_pos ha, hre, him]
  · rw [if_neg ha, hre]
    have hz : ∀ row ∈ d.im, ∀ x ∈ row, x = 0 := by
      intro row hr x hx
      by_contra hne
      apply ha
      unfold anyImag
      rw [List.any_eq_true]
      refine ⟨row, hr, ?_⟩
      rw [List.any_eq_true]
      exact ⟨x, hx, by simpa using hne⟩
    have him0 : d.im = zeroImage h w := by
      unfold zeroImage
      rw [List.eq_replicate_iff]
      refine ⟨him1, ?_⟩
      intro row hr
      rw [List.eq_replicate_iff]
      exact ⟨him2 row hr, fun x hx => hz row hr x hx⟩
    rw [hre1, hrw, ← him0]

/-- Concrete complex image with a zero imaginary plane. -/
def demoImage : CImage :=
  { re := [[1, 2], [3, 4]], im := [[0, 0], [0, 0]] }

theorem transform_zero_identity_witness :
    (demoImage.re.length = 2 ∧ (∀ row ∈ demoImage.re, row.length = 2) ∧
      (demoImage.re.headD []).length = 2 ∧ demoImage.im.length = 2 ∧
      (∀ row ∈ demoImage.im, row.length = 2) ∧ (demoImage.im.headD []).length = 2) ∧
      (_transform demoImage (0, 0) = demoImage ∧
        ∀ t : Int × Int, _transform demoImage t = _transform demoImage t) :=
  ⟨⟨by decide, by decide, by decide, by decide, by decide, by decide⟩,
    transform_zero_identity demoImage 2 2 (by decide) (by decide) (by decide)
      (by decide) (by decide) (by decide)⟩

/-! ## Label-transform branch of the align_frames workers

Embeds the `if labels:` branch shared by the per-pass worker
(xanes_frameset.py lines 832-838) and the final-pass worker (lines
920-929).  `labels` is a numpy integer array, so `if labels:` follows
numpy truthiness: an empty array is falsy, a one-element array takes
its element's truth value, and an array with more than one element
raises ValueError.  When the branch is entered it evaluates
`transform.warp(labels, transformation, ...)`, but `transformation` is
bound nowhere in the worker scope (the assignment at line 818 is
commented out, and the bindings at lines 516, 557 and 1000 live in
other methods), so Python raises NameError. -/

inductive PyExc where
  | valueError
  | nameError
deriving Repr, DecidableEq

/-- Numpy truthiness of an integer array. -/
def npTruth (a : List Int) : Except PyExc Bool :=
  match a with
  | [] => .ok false
  | [x] => .ok (decide (x ≠ 0))
  | _ => .error .valueError

/-- The label-transform branch: nothing happens without labels; with a
labels array, evaluate its truth value (possibly raising ValueError);
when truthy, the unbound name `transformation` raises NameError before
any label is warped, so no label output is ever produced. -/
def labelBranch (labels : Option (List Int)) : Except PyExc (Option (List Int)) :=
  match labels with
  | none => .ok none
  | some a =>
    match npTruth a with
    | .error e => .error e
    | .ok true => .error .nameError
    | .ok false => .ok none

/-- Task payload dispatched per frame by process_with_smp (lines
1875-1887). -/
structure WorkerPayload (κ : Type) where
  key : κ
  data : ImgExpr κ
  labels : Option (List Int)

structure WorkerResult (κ : Type) where
  key : κ
  data : ImgExpr κ
  shift : ℚ × ℚ
  labels : Option (List Int)

/-- Per-pass worker (lines 788-839): compute the registration shift,
warp the data once, then run the label-transform branch. -/
def passWorker {κ : Type} (reg : Nat → κ → ℚ × ℚ) (p : Nat)
    (payload : WorkerPayload κ) : Except PyExc (WorkerResult κ) :=
  let shift := reg p payload.key
  match labelBranch payload.labels with
  | .error e => .error e
  | .ok l =>
    .ok { key := payload.key, data := .warped payload.data shift, shift := shift,
          labels := l }

/-- Final-pass worker (lines 902-930): sum the recorded shifts, warp
the original data once, then run the label-transform branch. -/
def finalWorker {κ : Type} (shifts : κ → List (ℚ × ℚ))
    (payload : WorkerPayload κ) : Except PyExc (WorkerResult κ) :=
  let shift := sumShift (shifts payload.key)
  match labelBranch payload.labels with
  | .error e => .error e
  | .ok l =>
    .ok { key := payload.key, data := .warped payload.data shift, shift := shift,
          labels := l }

/-- Counterexample to C10 as stated: a payload carrying the non-empty
one-element label array [0] is falsy under numpy truthiness, so the
label-transform branch is skipped and both workers complete without
raising — align_frames is not limited to framesets whose payloads carry
no labels. -/
theorem align_worker_labels_counterexample :
    (([0] : List Int) ≠ []) ∧
      passWorker demoReg 0 { key := 0, data := .orig 0, labels := some [0] } =
        .ok { key := 0, data := .warped (.orig 0) (demoReg 0 0),
              shift := demoReg 0 0, labels := none } ∧
      finalWorker (fun _ => []) { key := 0, data := .orig 0, labels := some [0] } =
        .ok { key := 0, data := .warped (.orig 0) (sumShift []),
              shift := sumShift [], labels := none } :=
  ⟨by decide, rfl, rfl⟩

/-- C10 (amended) — in both align_frames workers, a payload whose labels
entry is a non-empty label array raises upon reaching the
label-transform branch in every case except a single falsy element: an
array with two or more elements raises ValueError at the truth-value
test, and a single-element truthy array reaches the unbound name
`transformation` and raises NameError; consequently align_frames can
only complete when every dispatched payload carries no labels, an empty
label array, or a single zero label. -/
theorem align_worker_labels_raise {κ : Type} (reg : Nat → κ → ℚ × ℚ) (p : Nat)
    (shifts : κ → List (ℚ × ℚ)) (payload : WorkerPayload κ) (a : List Int)
    (hl : payload.labels = some a) :
    (2 ≤ a.length →
      passWorker reg p payload = .error .valueError ∧
      finalWorker shifts payload = .error .valueError) ∧
    (∀ x, a = [x] → x ≠ 0 →
      passWorker reg p payload = .error .nameError ∧
      finalWorker shifts payload = .error .nameError) := by
  constructor
  · intro hlen
    match a, hlen with
    | x :: y :: rest, _ =>
      have hbr : labelBranch (some (x :: y :: rest)) = .error .valueError := rfl
      constructor
      · rw [passWorker, hl, hbr]
      · rw [finalWorker, hl, hbr]
  · intro x hx hx0
    subst hx
    have h2 : npTruth [x] = .ok true := by
      rw [show npTruth [x] = .ok (decide (x ≠ 0)) from rfl, decide_eq_true hx0]
    have hbr : labelBranch (some [x]) = .error .nameError := by
      show (match npTruth [x] with
        | Except.error e => (Except.error e : Except PyExc (Option (List Int)))
        | Except.ok true => Except.error PyExc.nameError
        | Except.ok false => Except.ok none) = Except.error PyExc.nameError
      rw [h2]
    constructor
    · rw [passWorker, hl, hbr]
    · rw [finalWorker, hl, hbr]

theorem align_worker_labels_raise_witness :
    ({ key := 0, data := .orig 0, labels := some [1, 2] } :
        WorkerPayload Nat).labels = some [1, 2] ∧
      ((2 ≤ ([1, 2] : List Int).length →
        passWorker demoReg 0 { key := 0, data := .orig 0, labels := some [1, 2] } =
            .error .valueError ∧
          finalWorker (fun _ => []) { key := 0, data := .orig 0, labels := some [1, 2] } =
            .error .valueError) ∧
      (∀ x, ([1, 2] : List Int) = [x] → x ≠ 0 →
        passWorker demoReg 0 { key := 0, data := .orig 0, labels := some [1, 2] } =
            .error .nameError ∧
          finalWorker (fun _ => []) { key := 0, data := .orig 0, labels := some [1, 2] } =
            .error .nameError)) :=
  ⟨rfl, align_worker_labels_raise demoReg 0 (fun _ => [])
    { key := 0, data := .orig 0, labels := some [1, 2] } [1, 2] rfl⟩
